import Mathlib

/-!
Verification development for the gomiddleware/mux HTTP router (file `mux.go`).

The embedding below translates the router's data model and operations:
the registry (`Route`, `add`), the matcher (`isMatch`, `isPrefixMatch`),
the dispatcher (`ServeHTTP`, its scan loop and the middleware continuation
protocol), and the placeholder accessor (`Vals`).

Strings are modelled by Lean `String`; Go string slicing such as `s[0:1]`
and `s[1:]` is modelled on the character list `s.data`, which agrees with
the byte-level Go operation whenever the byte inspected is ASCII (the only
bytes the router ever compares this way are `:` and `/`).

A Go `map[string]string` is modelled as an association list with
overwrite-on-insert (`bindingsInsert`); a nil Go map is distinguished from
an empty one by `GoStrMap.nil` versus `GoStrMap.map []`.

Middleware observable behaviour: at dispatch time each middleware is run
against the real response writer with a synthetic `next` handler whose only
observable effect is flipping a `finished` flag when called, so a
middleware's interaction with the dispatcher is fully described by whether
it calls `next` for the request it is given.  A middleware is therefore
modelled as a function `Request → Bool` (`true` means it called `next`),
and the dispatcher's observable actions are recorded as an `Event` trace.
-/

set_option maxRecDepth 8000

namespace GomiddlewareMux

/-- Byte-level slice `s[0:n]` of a Go string, modelled on the character list;
agrees with Go when the inspected bytes are ASCII. -/
def strTake (s : String) (n : Nat) : String := String.mk (s.data.take n)

/-- Byte-level slice `s[1:]` of a Go string, modelled on the character list;
used only after checking that the first byte is the ASCII colon. -/
def strDrop1 (s : String) : String := String.mk (s.data.drop 1)

/-- Splits a character list at every occurrence of the separator, keeping empty
fields; models Go `strings.Split` with a one-character separator. -/
def splitOnChar (c : Char) : List Char → List (List Char)
  | [] => [[]]
  | x :: xs =>
    let r := splitOnChar c xs
    if x = c then [] :: r
    else
      match r with
      | y :: ys => (x :: y) :: ys
      | [] => [[x]]

/-- Models Go `strings.Split(s, "/")`. -/
def goSplitSlash (s : String) : List String := (splitOnChar '/' s.data).map String.mk

/-- Models `strings.Split(p, "/")[1:]`, computed both at registration (`add`,
mux.go line 510) and at dispatch (`ServeHTTP`, mux.go line 678). -/
def segmentsOf (p : String) : List String := (goSplitSlash p).drop 1

/-- Association-list model of assignment `m[k] = v` into a Go
`map[string]string`: the new pair replaces any previous pair for the key. -/
def bindingsInsert (m : List (String × String)) (k v : String) : List (String × String) :=
  (m.filter (fun p => !(p.1 == k))) ++ [(k, v)]

/-- Lookup in the association-list model of a Go `map[string]string`. -/
def bindingsLookup : List (String × String) → String → Option String
  | [], _ => none
  | (k, v) :: rest, key => if k = key then some v else bindingsLookup rest key

/-- A Go `map[string]string` value as returned by `isMatch`: either the nil map
(returned on every failure path) or a real, possibly empty, map. -/
inductive GoStrMap where
  | nil : GoStrMap
  | map (entries : List (String × String)) : GoStrMap
deriving DecidableEq

/-- The parts of an `http.Request` the router reads or writes: the method, the
URL path, and the context value stored under the private key `valsIdKey`
(`none` models a context in which the key was never set). -/
structure Request where
  method : String
  path : String
  ctx : Option GoStrMap
deriving DecidableEq

/-- Observable behaviour of one middleware under the dispatcher's continuation
protocol (mux.go lines 704-729): given the request it receives, does it call
the synthetic `next` handler (whose only observable effect is setting the
`finished` flag to `false`)? -/
def Middleware : Type := Request → Bool

/-- Mirror of the `Route` struct (mux.go lines 421-428); `Handler` is the
optional terminal handler, identified by a numeric id (`none` models a nil
`http.Handler`). -/
structure Route where
  Method : String
  Path : String
  Segments : List String
  Length : Nat
  Middlewares : List Middleware
  Handler : Option Nat

/-- Helper-loop of `isMatch` (mux.go lines 628-648): walks the route segments
and the request segments pairwise, accumulating placeholder bindings; `none`
models the `return nil, false` mismatch exits.  The final ragged case cannot be
reached from `isMatch`, whose preceding length check guards the Go indexing
`segments[i]`. -/
def matchSegs : List String → List String → List (String × String) →
    Option (List (String × String))
  | [], _, vals => some vals
  | seg :: restPat, reqSeg :: restReq, vals =>
    if seg = "" ∧ reqSeg = "" then matchSegs restPat restReq vals
    else if seg ≠ "" ∧ strTake seg 1 = ":" then
      matchSegs restPat restReq (bindingsInsert vals (strDrop1 seg) reqSeg)
    else if reqSeg ≠ seg then none
    else matchSegs restPat restReq vals
  | _ :: _, [], _ => none

/-- Mirror of `isMatch` (mux.go lines 610-652): exact matching of a verb route
against the request method and segments, returning the Go map of placeholder
bindings (nil on failure, non-nil on success) and the success flag. -/
def isMatch (method : String) (segments : List String) (route : Route) :
    GoStrMap × Bool :=
  if route.Method ≠ method then (GoStrMap.nil, false)
  else if route.Length ≠ segments.length then (GoStrMap.nil, false)
  else
    match matchSegs route.Segments segments [] with
    | some vals => (GoStrMap.map vals, true)
    | none => (GoStrMap.nil, false)

/-- Helper-loop of `isPrefixMatch` (mux.go lines 585-604).  The placeholder
test mirrors the source literally: the Go code compares the slice
`segment[0:0]` (which is always the empty string) with the string containing a
colon, so that branch never fires.  The final ragged case cannot be reached
from `isPrefixMatch`, whose preceding length check guards the Go indexing
`segments[i]`. -/
def prefixSegs : List String → List String → Bool
  | [], _ => true
  | seg :: restPat, reqSeg :: restReq =>
    if seg = "" ∧ reqSeg = "" then prefixSegs restPat restReq
    else if strTake seg 0 = ":" then prefixSegs restPat restReq
    else if reqSeg ≠ seg then false
    else prefixSegs restPat restReq
  | _ :: _, [] => false

/-- Mirror of `isPrefixMatch` (mux.go lines 569-608): prefix matching for USE
entries.  A pattern whose segments are the single empty string (pattern `/`)
matches everything; otherwise the pattern may not be longer than the request
and is compared pairwise over its own length. -/
def isPrefixMatch (segments : List String) (route : Route) : Bool :=
  if route.Length = 1 ∧ route.Segments.headD "" = "" then true
  else if segments.length < route.Length then false
  else prefixSegs route.Segments segments

/-- Modelled from the spec: the prefix matcher as the spec describes it
("placeholders accepted as wildcards", spec section 4.2).  It differs from the
source's `prefixSegs` only in testing the one-byte slice `segment[0:1]` for the
colon instead of the empty slice `segment[0:0]`. -/
def prefixSegsSpec : List String → List String → Bool
  | [], _ => true
  | seg :: restPat, reqSeg :: restReq =>
    if seg = "" ∧ reqSeg = "" then prefixSegsSpec restPat restReq
    else if strTake seg 1 = ":" then prefixSegsSpec restPat restReq
    else if reqSeg ≠ seg then false
    else prefixSegsSpec restPat restReq
  | _ :: _, [] => false

/-- Modelled from the spec: `isPrefixMatch` with the spec's wildcard
placeholder rule, for comparison with the source's behaviour. -/
def isPrefixMatchSpec (segments : List String) (route : Route) : Bool :=
  if route.Length = 1 ∧ route.Segments.headD "" = "" then true
  else if segments.length < route.Length then false
  else prefixSegsSpec route.Segments segments

/-- Items passed to a registration call, classified exactly as the type switch
in `add` (mux.go lines 514-548) classifies them: a middleware wrapper, a
terminal handler (either an `http.Handler` value or a bare
`func(http.ResponseWriter, *http.Request)`), or anything else. -/
inductive Thing where
  | middleware (mw : Middleware) : Thing
  | handlerObj (hid : Nat) : Thing
  | handlerFunc (hid : Nat) : Thing
  | other : Thing

/-- Registration-time errors of the package (mux.go lines 408-418). -/
inductive MuxError where
  | MultipleHandlers : MuxError
  | MiddlewareAfterHandler : MuxError
  | UnknownTypeInRoute : MuxError
deriving DecidableEq

/-- Result of a registration call: the Go panic on a path not starting with a
slash, an error return (with the unchanged route list), or the extended route
list. -/
inductive AddOutcome where
  | panicked : AddOutcome
  | failed (e : MuxError) (routes : List Route) : AddOutcome
  | ok (routes : List Route) : AddOutcome

/-- Mirror of the classification loop in `add` (mux.go lines 514-548):
middleware after a recognized handler, a second handler, or an unknown item
each abort with the corresponding error. -/
def collectThings : List Thing → List Middleware → Option Nat →
    Except MuxError (List Middleware × Option Nat)
  | [], mws, h => Except.ok (mws, h)
  | Thing.middleware mw :: rest, mws, h =>
    match h with
    | some _ => Except.error MuxError.MiddlewareAfterHandler
    | none => collectThings rest (mws ++ [mw]) h
  | Thing.handlerObj hid :: rest, mws, h =>
    match h with
    | some _ => Except.error MuxError.MultipleHandlers
    | none => collectThings rest mws (some hid)
  | Thing.handlerFunc hid :: rest, mws, h =>
    match h with
    | some _ => Except.error MuxError.MultipleHandlers
    | none => collectThings rest mws (some hid)
  | Thing.other :: _, _, _ => Except.error MuxError.UnknownTypeInRoute

/-- Mirror of `add` (mux.go lines 495-567): panic if the path does not begin
with a slash, classify the supplied items, and on success append the new route
(segments and cached length computed from the path). -/
def add (m : List Route) (method p : String) (things : List Thing) : AddOutcome :=
  if strTake p 1 ≠ "/" then AddOutcome.panicked
  else
    match collectThings things [] none with
    | Except.error e => AddOutcome.failed e m
    | Except.ok (mws, h) =>
      AddOutcome.ok (m ++ [{ Method := method, Path := p, Segments := segmentsOf p,
                             Length := (segmentsOf p).length,
                             Middlewares := mws, Handler := h }])

/-- One step of the component stack used by lexical path cleaning: skip empty
and dot components, pop on dot-dot (dropping it at the root of a rooted path,
keeping it on a relative path with nothing to pop), push a literal. -/
def cleanStack (rooted : Bool) (st : List String) (c : String) : List String :=
  if c = "" ∨ c = "." then st
  else if c = ".." then
    match st with
    | [] => if rooted then [] else [".."]
    | x :: rest => if x = ".." then ".." :: x :: rest else rest
  else c :: st

/-- Joins strings with a separator between consecutive elements. -/
def strIntercalate (sep : String) : List String → String
  | [] => ""
  | [x] => x
  | x :: y :: xs => x ++ sep ++ strIntercalate sep (y :: xs)

/-- Modelled from the spec: the lexical path-cleaning primitive the dispatcher
consumes from the platform (`path.Clean`, which is outside this repository;
spec sections 4.3 step 1 and 6): resolve `.` and `..`, collapse duplicate
slashes, return `.` for an empty result, and keep the leading slash of a
rooted path (under which `..` cannot escape the root). -/
def clean (p : String) : String :=
  if p = "" then "."
  else
    let rooted := p.data.head? = some '/'
    let st := (goSplitSlash p).foldl (cleanStack rooted) []
    let body := strIntercalate "/" st.reverse
    if rooted then "/" ++ body
    else if body = "" then "." else body

/-- Mirror of the normalization step of `ServeHTTP` (mux.go lines 659-669):
clean the raw path, then re-append a trailing slash when the original path
ended with one and the cleaned path is not the bare root. -/
def normalizePath (p : String) : String :=
  let np := clean p
  if np ≠ "/" ∧ p.data.getLast? = some '/' then np ++ "/" else np

/-- Observable actions of one dispatch, in the order they happen against the
response writer: a middleware of a registry entry runs (receiving the given
request), or an entry's terminal handler runs. -/
inductive Event where
  | mwRun (routeIdx mwIdx : Nat) (req : Request) : Event
  | handlerRun (routeIdx : Nat) (req : Request) : Event
deriving DecidableEq

/-- Registry index an event belongs to. -/
def eventRouteIdx : Event → Nat
  | Event.mwRun i _ _ => i
  | Event.handlerRun i _ => i

/-- Final outcome of a dispatch: a redirect with its HTTP status, the
not-found response, or a terminal response produced by a matched entry
(a middleware that did not call `next`, or a terminal handler). -/
inductive Outcome where
  | redirect (loc : String) (status : Nat) : Outcome
  | notFound : Outcome
  | handled : Outcome
deriving DecidableEq

/-- Mirror of the per-entry test in the scan loop of `ServeHTTP` (mux.go lines
685-698): a USE entry is prefix-matched and leaves the request unchanged; any
other entry is exact-matched and the returned bindings are stored into the
request context before the success flag is examined. -/
def testRoute (segs : List String) (req : Request) (route : Route) :
    Request × Bool :=
  if route.Method = "USE" then (req, isPrefixMatch segs route)
  else
    let mv := isMatch req.method segs route
    ({ req with ctx := some mv.1 }, mv.2)

/-- Mirror of the middleware loop of `ServeHTTP` (mux.go lines 704-729): run
the middlewares one at a time against the real response writer; stop (with
`false`, meaning `finished` stayed `true`) after the first middleware that
does not call the synthetic `next`; return `true` when every middleware called
`next`.  The produced events record each middleware run with its index. -/
def runChain (idx : Nat) (req : Request) : List Middleware → Nat →
    List Event × Bool
  | [], _ => ([], true)
  | mw :: rest, j =>
    if mw req then
      let r := runChain idx req rest (j + 1)
      (Event.mwRun idx j req :: r.1, r.2)
    else ([Event.mwRun idx j req], false)

/-- Mirror of the scan loop of `ServeHTTP` (mux.go lines 682-743): test each
entry in registration order; on a match run its middleware chain, stop when the
chain finishes, otherwise invoke the terminal handler when present, and
otherwise keep scanning; answer not-found when the list is exhausted. -/
def scan (segs : List String) : List Route → Nat → Request → List Event × Outcome
  | [], _, _ => ([], Outcome.notFound)
  | route :: rest, idx, req =>
    let tr := testRoute segs req route
    if tr.2 then
      let chain := runChain idx tr.1 route.Middlewares 0
      if chain.2 then
        match route.Handler with
        | some _ => (chain.1 ++ [Event.handlerRun idx tr.1], Outcome.handled)
        | none =>
          let r2 := scan segs rest (idx + 1) tr.1
          (chain.1 ++ r2.1, r2.2)
      else (chain.1, Outcome.handled)
    else scan segs rest (idx + 1) tr.1

/-- Mirror of `ServeHTTP` (mux.go lines 655-744): normalize the path, redirect
with HTTP status 302 (`http.StatusFound`) when normalization changed it, and
otherwise split the path into segments and scan the registry.  No error is
ever produced at request time: the outcome is a redirect, a terminal response,
or not-found. -/
def ServeHTTP (m : List Route) (req : Request) : List Event × Outcome :=
  let normPath := normalizePath req.path
  if normPath ≠ req.path then ([], Outcome.redirect normPath 302)
  else scan (segmentsOf normPath) m 0 req

/-- Result of the `Vals` accessor: either the Go panic of a failed type
assertion, or the stored map. -/
inductive ValsResult where
  | panic : ValsResult
  | ok (m : GoStrMap) : ValsResult
deriving DecidableEq

/-- Mirror of `Vals` (mux.go lines 746-748):
`r.Context().Value(valsIdKey).(map[string]string)`.  When the key was never
stored, `Value` yields nil and the unconditional type assertion panics; a
stored value (even the nil map) asserts successfully. -/
def Vals (r : Request) : ValsResult :=
  match r.ctx with
  | none => ValsResult.panic
  | some m => ValsResult.ok m

/-- Default route used only to give `List.getD` a second argument in
statements about registry indices. -/
def dRoute : Route := { Method := "", Path := "", Segments := [],
                        Length := 0, Middlewares := [], Handler := none }

/-- Whether a registry entry matches the request, by the mode its method
selects, exactly as the scan loop of `ServeHTTP` decides it (mux.go lines
688-698): prefix match for USE entries, exact match for verb entries. -/
def routeMatches (segs : List String) (method : String) (route : Route) : Bool :=
  if route.Method = "USE" then isPrefixMatch segs route
  else (isMatch method segs route).2

/-! Helper lemmas about the string model. -/

theorem strDataAppend (a b : String) : (a ++ b).data = a.data ++ b.data := by
  cases a; cases b; rfl

theorem strDataInj (a b : String) (h : a.data = b.data) : a = b := by
  cases a; cases b; exact congrArg String.mk h

theorem strTake_zero_ne_colon (s : String) : ¬ strTake s 0 = ":" := by
  cases s with
  | mk l =>
    intro h
    have := congrArg String.data h
    simp [strTake] at this

theorem strTake_one_colon_iff (s : String) : strTake s 1 = ":" ↔ s.data.head? = some ':' := by
  cases s with
  | mk l =>
    cases l with
    | nil => decide
    | cons c cs =>
      have h1 : strTake (String.mk (c :: cs)) 1 = String.mk [c] := rfl
      rw [h1]
      constructor
      · intro h
        have h2 : [c] = [':'] := congrArg String.data h
        simpa using h2
      · intro h
        simp at h
        subst h
        rfl

theorem colon_decomp (s : String) (h : s.data.head? = some ':') : s = ":" ++ strDrop1 s := by
  cases s with
  | mk l =>
    cases l with
    | nil => simp at h
    | cons c cs =>
      simp at h
      subst h
      rfl

theorem colon_append_ne (s name : String) (h : ¬ s.data.head? = some ':') :
    ¬ (":" ++ name = s) := by
  intro e
  apply h
  rw [← e, strDataAppend]
  rfl

theorem colon_append_inj (a b : String) : ":" ++ a = ":" ++ b ↔ a = b := by
  constructor
  · intro h
    apply strDataInj
    have h2 := congrArg String.data h
    rw [strDataAppend, strDataAppend] at h2
    simpa using h2
  · intro h; rw [h]

/-! Helper lemmas about the association-list model of Go maps. -/

theorem bindingsLookup_append (a b : List (String × String)) (key : String) :
    bindingsLookup (a ++ b) key =
      match bindingsLookup a key with
      | some v => some v
      | none => bindingsLookup b key := by
  induction a with
  | nil => rfl
  | cons p rest ih =>
    obtain ⟨k, v⟩ := p
    by_cases h : k = key
    · simp [bindingsLookup, h]
    · simp [bindingsLookup, h, ih]

theorem bindingsLookup_filter_self (m : List (String × String)) (k : String) :
    bindingsLookup (m.filter (fun p => !(p.1 == k))) k = none := by
  induction m with
  | nil => rfl
  | cons p rest ih =>
    obtain ⟨k1, v⟩ := p
    by_cases h : k1 = k
    · simp [List.filter_cons, h, ih]
    · simp [List.filter_cons, h, bindingsLookup, ih]

theorem bindingsLookup_filter_ne (m : List (String × String)) (k key : String)
    (h : ¬ key = k) :
    bindingsLookup (m.filter (fun p => !(p.1 == k))) key = bindingsLookup m key := by
  induction m with
  | nil => rfl
  | cons p rest ih =>
    obtain ⟨k1, v⟩ := p
    by_cases h1 : k1 = k
    · have hk : ¬ k = key := fun e => h e.symm
      have hk1 : ¬ k1 = key := fun e => h (by rw [← e, h1])
      simp [List.filter_cons, h1, bindingsLookup, hk, hk1, ih]
    · simp [List.filter_cons, h1, bindingsLookup, ih]

theorem bindingsLookup_insert_self (m : List (String × String)) (k v : String) :
    bindingsLookup (bindingsInsert m k v) k = some v := by
  unfold bindingsInsert
  rw [bindingsLookup_append, bindingsLookup_filter_self]
  simp [bindingsLookup]

theorem bindingsLookup_insert_ne (m : List (String × String)) (k v key : String)
    (h : ¬ key = k) :
    bindingsLookup (bindingsInsert m k v) key = bindingsLookup m key := by
  unfold bindingsInsert
  rw [bindingsLookup_append, bindingsLookup_filter_ne m k key h]
  have hk : ¬ k = key := fun e => h e.symm
  cases hm : bindingsLookup m key <;> simp [bindingsLookup, hk]

theorem str_empty_data : ("" : String).data = [] := rfl

theorem strDrop1_colon_append (name : String) : strDrop1 (":" ++ name) = name := by
  cases name with
  | mk l => rfl

/-! Helper lemmas about the exact-match segment walk. -/

theorem matchSegs_isSome_iff (pat : List String) :
    ∀ (reqs : List String) (acc : List (String × String)),
      pat.length = reqs.length →
      ((matchSegs pat reqs acc).isSome = true ↔
        ∀ p ∈ pat.zip reqs,
          p.1 = p.2 ∨ (p.1 = "" ∧ p.2 = "") ∨ p.1.data.head? = some ':') := by
  induction pat with
  | nil => intro reqs acc _; simp [matchSegs]
  | cons seg restPat ih =>
    intro reqs acc hlen
    cases reqs with
    | nil => simp at hlen
    | cons reqSeg restReq =>
      have hlen2 : restPat.length = restReq.length := by simpa using hlen
      by_cases hb : seg = "" ∧ reqSeg = ""
      · simp only [matchSegs, if_pos hb]
        rw [ih restReq acc hlen2]
        simp [List.forall_mem_cons, hb]
      · by_cases hph : seg ≠ "" ∧ strTake seg 1 = ":"
        · simp only [matchSegs, if_neg hb, if_pos hph]
          rw [ih restReq (bindingsInsert acc (strDrop1 seg) reqSeg) hlen2]
          have hcol : seg.data.head? = some ':' := (strTake_one_colon_iff seg).mp hph.2
          simp [List.forall_mem_cons, hcol]
        · by_cases hne : reqSeg ≠ seg
          · simp only [matchSegs, if_neg hb, if_neg hph, if_pos hne]
            constructor
            · intro h; simp at h
            · intro h
              exfalso
              rcases h (seg, reqSeg) (List.mem_cons_self _ _) with h1 | h2 | h3
              · exact hne h1.symm
              · exact hb h2
              · rcases not_and_or.mp hph with h4 | h4
                · have hseg : seg = "" := not_not.mp h4
                  rw [hseg, str_empty_data] at h3
                  simp at h3
                · exact h4 ((strTake_one_colon_iff seg).mpr h3)
          · have he : reqSeg = seg := not_not.mp hne
            simp only [matchSegs, if_neg hb, if_neg hph, if_neg hne]
            rw [ih restReq acc hlen2]
            simp [List.forall_mem_cons, he]

theorem matchSegs_lookup_isSome (pat : List String) :
    ∀ (reqs : List String) (acc out : List (String × String)),
      matchSegs pat reqs acc = some out →
      ∀ name, ((bindingsLookup out name).isSome = true ↔
        (":" ++ name) ∈ pat ∨ (bindingsLookup acc name).isSome = true) := by
  induction pat with
  | nil =>
    intro reqs acc out h name
    simp [matchSegs] at h
    subst h
    simp
  | cons seg restPat ih =>
    intro reqs acc out h name
    cases reqs with
    | nil => simp [matchSegs] at h
    | cons reqSeg restReq =>
      by_cases hb : seg = "" ∧ reqSeg = ""
      · simp only [matchSegs, if_pos hb] at h
        rw [ih restReq acc out h name]
        have hne2 : ¬ (":" ++ name = seg) := by
          rw [hb.1]
          exact colon_append_ne "" name (by rw [str_empty_data]; simp)
        simp [List.mem_cons, hne2]
      · by_cases hph : seg ≠ "" ∧ strTake seg 1 = ":"
        · simp only [matchSegs, if_neg hb, if_pos hph] at h
          have hcol : seg.data.head? = some ':' := (strTake_one_colon_iff seg).mp hph.2
          rw [ih restReq (bindingsInsert acc (strDrop1 seg) reqSeg) out h name]
          by_cases hn : name = strDrop1 seg
          · have hl1 : (bindingsLookup (bindingsInsert acc (strDrop1 seg) reqSeg) name).isSome
                = true := by
              rw [hn, bindingsLookup_insert_self]
              rfl
            have hl2 : (":" ++ name) ∈ seg :: restPat := by
              have hseq : (":" : String) ++ name = seg := by
                rw [hn]
                exact (colon_decomp seg hcol).symm
              rw [hseq]
              exact List.mem_cons_self _ _
            simp [hl1, hl2]
          · have hne2 : ¬ (":" ++ name = seg) := by
              intro e
              apply hn
              rw [← e, strDrop1_colon_append]
            rw [bindingsLookup_insert_ne acc (strDrop1 seg) reqSeg name hn]
            simp [List.mem_cons, hne2]
        · by_cases hne : reqSeg ≠ seg
          · simp only [matchSegs, if_neg hb, if_neg hph, if_pos hne] at h
            exact absurd h (by simp)
          · simp only [matchSegs, if_neg hb, if_neg hph, if_neg hne] at h
            rw [ih restReq acc out h name]
            have hcolne : ¬ seg.data.head? = some ':' := by
              rcases not_and_or.mp hph with h4 | h4
              · have hseg : seg = "" := not_not.mp h4
                rw [hseg, str_empty_data]
                simp
              · intro hc
                exact h4 ((strTake_one_colon_iff seg).mpr hc)
            have hne2 := colon_append_ne seg name hcolne
            simp [List.mem_cons, hne2]

theorem matchSegs_lookup_mem (pat : List String) :
    ∀ (reqs : List String) (acc out : List (String × String)),
      matchSegs pat reqs acc = some out →
      ∀ name v, bindingsLookup out name = some v →
        ((":" ++ name), v) ∈ pat.zip reqs ∨ bindingsLookup acc name = some v := by
  induction pat with
  | nil =>
    intro reqs acc out h name v hl
    simp [matchSegs] at h
    subst h
    right
    exact hl
  | cons seg restPat ih =>
    intro reqs acc out h name v hl
    cases reqs with
    | nil => simp [matchSegs] at h
    | cons reqSeg restReq =>
      by_cases hb : seg = "" ∧ reqSeg = ""
      · simp only [matchSegs, if_pos hb] at h
        rcases ih restReq acc out h name v hl with hz | ha
        · exact Or.inl (List.mem_cons_of_mem _ hz)
        · exact Or.inr ha
      · by_cases hph : seg ≠ "" ∧ strTake seg 1 = ":"
        · simp only [matchSegs, if_neg hb, if_pos hph] at h
          have hcol : seg.data.head? = some ':' := (strTake_one_colon_iff seg).mp hph.2
          rcases ih restReq (bindingsInsert acc (strDrop1 seg) reqSeg) out h name v hl
            with hz | ha
          · exact Or.inl (List.mem_cons_of_mem _ hz)
          · by_cases hn : name = strDrop1 seg
            · rw [hn, bindingsLookup_insert_self] at ha
              have hv : reqSeg = v := by
                injection ha
              left
              have hseq : (":" : String) ++ name = seg := by
                rw [hn]
                exact (colon_decomp seg hcol).symm
              rw [hseq, ← hv]
              exact List.mem_cons_self _ _
            · rw [bindingsLookup_insert_ne acc (strDrop1 seg) reqSeg name hn] at ha
              exact Or.inr ha
        · by_cases hne : reqSeg ≠ seg
          · simp only [matchSegs, if_neg hb, if_neg hph, if_pos hne] at h
            exact absurd h (by simp)
          · simp only [matchSegs, if_neg hb, if_neg hph, if_neg hne] at h
            rcases ih restReq acc out h name v hl with hz | ha
            · exact Or.inl (List.mem_cons_of_mem _ hz)
            · exact Or.inr ha

/-! Helper lemmas about the prefix-match segment walk, the middleware chain
runner and the per-entry test. -/

theorem prefixSegs_iff (pat : List String) :
    ∀ reqs : List String, pat.length ≤ reqs.length →
      (prefixSegs pat reqs = true ↔
        ∀ p ∈ pat.zip reqs, p.1 = p.2 ∨ (p.1 = "" ∧ p.2 = "")) := by
  induction pat with
  | nil => intro reqs _; simp [prefixSegs]
  | cons seg restPat ih =>
    intro reqs hlen
    cases reqs with
    | nil => simp at hlen
    | cons reqSeg restReq =>
      have hlen2 : restPat.length ≤ restReq.length := by simpa using hlen
      have hz := strTake_zero_ne_colon seg
      by_cases hb : seg = "" ∧ reqSeg = ""
      · simp only [prefixSegs, if_pos hb]
        rw [ih restReq hlen2]
        simp [List.forall_mem_cons, hb]
      · by_cases hne : reqSeg ≠ seg
        · simp only [prefixSegs, if_neg hb, if_neg hz, if_pos hne]
          constructor
          · intro h; simp at h
          · intro h
            rcases h (seg, reqSeg) (List.mem_cons_self _ _) with h1 | h2
            · exact absurd h1.symm hne
            · exact absurd h2 hb
        · have he : reqSeg = seg := not_not.mp hne
          simp only [prefixSegs, if_neg hb, if_neg hz, if_neg hne]
          rw [ih restReq hlen2]
          simp [List.forall_mem_cons, he]

theorem runChain_snd (idx : Nat) (req : Request) (mws : List Middleware) :
    ∀ j, (runChain idx req mws j).2 = mws.all (fun mw => mw req) := by
  induction mws with
  | nil => intro j; rfl
  | cons mw rest ih =>
    intro j
    by_cases h : mw req = true
    · simp [runChain, h, ih]
    · simp [runChain, h]

theorem map_range_shift (f : Nat → Event) (m j : Nat) :
    (List.range m).map (fun i => f (j + 1 + i))
      = (List.range m).map ((fun i => f (j + i)) ∘ Nat.succ) := by
  apply List.map_congr_left
  intro a _
  simp only [Function.comp]
  congr 1
  omega

theorem runChain_fst_all (idx : Nat) (req : Request) :
    ∀ (mws : List Middleware), (∀ mw ∈ mws, mw req = true) →
      ∀ j, (runChain idx req mws j).1
        = (List.range mws.length).map (fun i => Event.mwRun idx (j + i) req) := by
  intro mws
  induction mws with
  | nil => intro _ j; simp [runChain]
  | cons mw rest ih =>
    intro hall j
    have h : mw req = true := hall mw (List.mem_cons_self _ _)
    have h1 : (runChain idx req (mw :: rest) j).1
        = Event.mwRun idx j req :: (runChain idx req rest (j + 1)).1 := by
      simp [runChain, h]
    rw [h1, ih (fun mw2 hm2 => hall mw2 (List.mem_cons_of_mem _ hm2)) (j + 1)]
    have h3 : (mw :: rest).length = rest.length + 1 := rfl
    rw [h3, List.range_succ_eq_map, List.map_cons, List.map_map]
    refine congrArg₂ List.cons ?_ ?_
    · simp
    · exact map_range_shift (fun n => Event.mwRun idx n req) rest.length j

theorem runChain_fst_stop (idx : Nat) (req : Request) :
    ∀ (pre : List Middleware) (bad : Middleware) (post : List Middleware) (j : Nat),
      (∀ mw ∈ pre, mw req = true) → bad req = false →
      (runChain idx req (pre ++ bad :: post) j).1
        = (List.range (pre.length + 1)).map (fun i => Event.mwRun idx (j + i) req)
      ∧ (runChain idx req (pre ++ bad :: post) j).2 = false := by
  intro pre
  induction pre with
  | nil =>
    intro bad post j _ hbad
    constructor
    · have hr : List.range 1 = [0] := rfl
      simp [runChain, hbad, hr]
    · simp [runChain, hbad]
  | cons mw rest ih =>
    intro bad post j hall hbad
    have h : mw req = true := hall mw (List.mem_cons_self _ _)
    have ihr := ih bad post (j + 1) (fun mw2 hm2 => hall mw2 (List.mem_cons_of_mem _ hm2)) hbad
    constructor
    · have h1 : (runChain idx req ((mw :: rest) ++ bad :: post) j).1
          = Event.mwRun idx j req :: (runChain idx req (rest ++ bad :: post) (j + 1)).1 := by
        simp [runChain, h]
      have h4 : (List.range ((mw :: rest).length + 1)).map (fun i => Event.mwRun idx (j + i) req)
          = Event.mwRun idx j req
            :: (List.range (rest.length + 1)).map (fun i => Event.mwRun idx (j + 1 + i) req) := by
        have h3 : (mw :: rest).length + 1 = (rest.length + 1) + 1 := rfl
        rw [h3, List.range_succ_eq_map, List.map_cons, List.map_map]
        refine congrArg₂ List.cons ?_ ?_
        · simp
        · exact (map_range_shift (fun n => Event.mwRun idx n req) (rest.length + 1) j).symm
      rw [h1, ihr.1, h4]
    · have h2 : (runChain idx req ((mw :: rest) ++ bad :: post) j).2
          = (runChain idx req (rest ++ bad :: post) (j + 1)).2 := by
        simp [runChain, h]
      rw [h2, ihr.2]

theorem runChain_mem_idx (idx : Nat) (req : Request) (mws : List Middleware) :
    ∀ j e, e ∈ (runChain idx req mws j).1 → eventRouteIdx e = idx := by
  induction mws with
  | nil => intro j e he; simp [runChain] at he
  | cons mw rest ih =>
    intro j e he
    by_cases h : mw req = true
    · simp [runChain, h] at he
      rcases he with he | he
      · rw [he]; rfl
      · exact ih (j + 1) e he
    · simp [runChain, h] at he
      rw [he]; rfl

theorem runChain_no_handlerRun (idx : Nat) (req : Request) (mws : List Middleware) :
    ∀ j n r, Event.handlerRun n r ∉ (runChain idx req mws j).1 := by
  induction mws with
  | nil => intro j n r; simp [runChain]
  | cons mw rest ih =>
    intro j n r
    by_cases h : mw req = true
    · simpa [runChain, h] using ih (j + 1) n r
    · simp [runChain, h]

theorem isMatch_snd_false_fst_nil (method : String) (segs : List String) (route : Route)
    (h : (isMatch method segs route).2 = false) :
    (isMatch method segs route).1 = GoStrMap.nil := by
  unfold isMatch at h ⊢
  by_cases h1 : route.Method ≠ method
  · simp [h1]
  · by_cases h2 : route.Length ≠ segs.length
    · simp [h1, h2]
    · simp only [if_neg h1, if_neg h2] at h ⊢
      cases hm : matchSegs route.Segments segs [] with
      | some vals =>
        rw [hm] at h
        simp at h
      | none => rfl

theorem testRoute_fst_method (segs : List String) (req : Request) (route : Route) :
    (testRoute segs req route).1.method = req.method := by
  unfold testRoute
  by_cases h : route.Method = "USE" <;> simp [h]

theorem testRoute_snd_eq (segs : List String) (req : Request) (route : Route) :
    (testRoute segs req route).2 = routeMatches segs req.method route := by
  unfold testRoute routeMatches
  by_cases h : route.Method = "USE" <;> simp [h]

/-! Claim theorems. -/

/-- C10: a request whose context holds no stored bindings value makes the
accessor `Vals` panic (failed type assertion on the nil context value) instead
of returning an empty map or an indication of absence. -/
theorem claim10_vals_absent_panics (method p : String) :
    Vals { method := method, path := p, ctx := none } = ValsResult.panic := rfl

/-- C3: the source's prefix matcher does not treat a placeholder segment as a
wildcard: the USE pattern `/u/:id` rejects the request segments `u, 42` and
accepts only a literal `:id` segment, while the spec-modelled wildcard matcher
accepts `u, 42`.  The Go code tests the always-empty slice `segment[0:0]`
against the colon, so its placeholder branch never fires. -/
theorem claim3_use_placeholder_compared_literally :
    isPrefixMatch ["u", "42"]
        { Method := "USE", Path := "/u/:id", Segments := ["u", ":id"], Length := 2,
          Middlewares := [], Handler := none } = false
    ∧ isPrefixMatch ["u", ":id"]
        { Method := "USE", Path := "/u/:id", Segments := ["u", ":id"], Length := 2,
          Middlewares := [], Handler := none } = true
    ∧ isPrefixMatchSpec ["u", "42"]
        { Method := "USE", Path := "/u/:id", Segments := ["u", ":id"], Length := 2,
          Middlewares := [], Handler := none } = true := by
  refine ⟨by decide, by decide, by decide⟩

/-- C9: when an exact-verb entry is tested and does not match, the dispatcher
still stores the matcher's returned nil binding map into the request context
before checking the success flag, so the rest of the scan continues with a
request whose context carries the nil map (`Vals` then returns the nil map),
and the request is changed unless its context already held that value. -/
theorem claim9_failed_match_stores_nil (segs : List String) (route : Route)
    (rest : List Route) (idx : Nat) (req : Request)
    (hverb : ¬ route.Method = "USE")
    (hnm : (isMatch req.method segs route).2 = false) :
    scan segs (route :: rest) idx req
      = scan segs rest (idx + 1) { req with ctx := some GoStrMap.nil }
    ∧ Vals { req with ctx := some GoStrMap.nil } = ValsResult.ok GoStrMap.nil
    ∧ ({ req with ctx := some GoStrMap.nil } = req ↔ req.ctx = some GoStrMap.nil) := by
  refine ⟨?_, rfl, ?_⟩
  · have h1 : testRoute segs req route
        = ({ req with ctx := some GoStrMap.nil }, false) := by
      unfold testRoute
      rw [if_neg hverb]
      have h2 := isMatch_snd_false_fst_nil req.method segs route hnm
      simp [h2, hnm]
    simp [scan, h1]
  · constructor
    · intro h
      exact (congrArg Request.ctx h).symm
    · intro h
      rw [← h]

/-- C9 witness: a concrete non-matching GET entry ahead of the rest of the
registry. -/
theorem claim9_witness :
    (¬ ("GET" : String) = "USE"
      ∧ (isMatch "GET" ["x"]
          { Method := "GET", Path := "/y", Segments := ["y"], Length := 1,
            Middlewares := [], Handler := some 5 }).2 = false)
    ∧ (scan ["x"]
          [({ Method := "GET", Path := "/y", Segments := ["y"], Length := 1,
              Middlewares := [], Handler := some 5 } : Route)] 0
          ({ method := "GET", path := "/x", ctx := none } : Request)
        = scan ["x"] [] 1
            ({ method := "GET", path := "/x", ctx := some GoStrMap.nil } : Request)
      ∧ Vals ({ method := "GET", path := "/x", ctx := some GoStrMap.nil } : Request)
          = ValsResult.ok GoStrMap.nil
      ∧ (({ method := "GET", path := "/x", ctx := some GoStrMap.nil } : Request)
            = ({ method := "GET", path := "/x", ctx := none } : Request)
          ↔ ({ method := "GET", path := "/x", ctx := none } : Request).ctx
              = some GoStrMap.nil)) :=
  ⟨⟨by decide, by decide⟩,
    claim9_failed_match_stores_nil ["x"] _ [] 0 _ (by decide) (by decide)⟩

/-- C5: the dispatcher redirects with HTTP 302 to the normalized path exactly
when normalization (lexical cleaning plus trailing-slash restoration) changes
the path, performing no routing in that case and proceeding to the scan
otherwise; in particular `/a/../b` is redirected to `/b`, and `/a/b/` is left
unchanged by normalization. -/
theorem claim5_normalize_and_redirect :
    (∀ (m : List Route) (req : Request), ¬ normalizePath req.path = req.path →
        ServeHTTP m req = ([], Outcome.redirect (normalizePath req.path) 302))
    ∧ (∀ (m : List Route) (req : Request), normalizePath req.path = req.path →
        ServeHTTP m req = scan (segmentsOf req.path) m 0 req)
    ∧ (∀ (m : List Route) (method : String) (c : Option GoStrMap),
        ServeHTTP m { method := method, path := "/a/../b", ctx := c }
          = ([], Outcome.redirect "/b" 302))
    ∧ normalizePath "/a/b/" = "/a/b/" := by
  refine ⟨?_, ?_, ?_, by decide⟩
  · intro m req h
    simp only [ServeHTTP]
    rw [if_pos h]
  · intro m req h
    simp only [ServeHTTP]
    rw [if_neg (fun hh => hh h), h]
  · intro m method c
    simp only [ServeHTTP]
    rw [if_pos (by decide), show normalizePath "/a/../b" = "/b" from by decide]

/-- C5 witness: the redirect branch applied at a concrete dotted path. -/
theorem claim5_witness :
    (¬ normalizePath "/a/../b" = "/a/../b")
    ∧ ServeHTTP [] { method := "GET", path := "/a/../b", ctx := none }
        = ([], Outcome.redirect (normalizePath "/a/../b") 302) :=
  ⟨by decide, claim5_normalize_and_redirect.1 [] _ (by decide)⟩

/-- C4: a USE entry without placeholder segments prefix-matches exactly when
its pattern is the single empty segment (pattern `/`, which matches every
path) or its segment count does not exceed the request's and each of its
segments equals the corresponding request segment (or both are empty), extra
trailing request segments being ignored. -/
theorem claim4_use_literal_segments (route : Route) (segs : List String)
    (hlen : route.Length = route.Segments.length)
    (hnp : ∀ s ∈ route.Segments, ¬ strTake s 1 = ":") :
    isPrefixMatch segs route = true ↔
      route.Segments = [""] ∨
      (route.Length ≤ segs.length ∧
        ∀ p ∈ route.Segments.zip segs, p.1 = p.2 ∨ (p.1 = "" ∧ p.2 = "")) := by
  unfold isPrefixMatch
  by_cases h1 : route.Length = 1 ∧ route.Segments.headD "" = ""
  · rw [if_pos h1]
    have hseg : route.Segments = [""] := by
      cases hs : route.Segments with
      | nil =>
        rw [hs] at hlen
        rw [h1.1] at hlen
        simp at hlen
      | cons a t =>
        cases t with
        | nil =>
          have ha : a = "" := by
            have h2 := h1.2
            rw [hs] at h2
            simpa using h2
          rw [ha]
        | cons b t2 =>
          rw [hs] at hlen
          rw [h1.1] at hlen
          simp at hlen
    simp [hseg]
  · rw [if_neg h1]
    have hne : ¬ route.Segments = [""] := by
      intro e
      apply h1
      rw [e] at hlen
      constructor
      · rw [hlen]; rfl
      · rw [e]; rfl
    by_cases h2 : segs.length < route.Length
    · rw [if_pos h2]
      constructor
      · intro h; exact absurd h (by simp)
      · rintro (h | ⟨h3, _⟩)
        · exact absurd h hne
        · omega
    · rw [if_neg h2]
      have hlen3 : route.Segments.length ≤ segs.length := by omega
      rw [prefixSegs_iff route.Segments segs hlen3]
      constructor
      · intro h
        right
        exact ⟨by omega, h⟩
      · rintro (h | ⟨_, h⟩)
        · exact absurd h hne
        · exact h

/-- C4 witness: the USE pattern `/a/b` against the longer request `/a/b/c`. -/
theorem claim4_witness :
    isPrefixMatch ["a", "b", "c"]
      { Method := "USE", Path := "/a/b", Segments := ["a", "b"], Length := 2,
        Middlewares := [], Handler := none } = true :=
  (claim4_use_literal_segments _ ["a", "b", "c"] (by decide) (by decide)).mpr (by decide)

/-- C1: the exact matcher succeeds exactly when the request method equals the
route method, the segment counts agree, and each route segment equals the
corresponding request segment, is empty together with it, or begins with a
colon; a count mismatch never matches; on success the returned map is non-nil
and holds exactly the declared placeholder names, each bound to a
corresponding literal request segment; and the dispatcher then invokes the
entry's terminal handler with those bindings stored in the request context. -/
theorem claim1_exact_match (route : Route) (method : String) (segs : List String)
    (hlen : route.Length = route.Segments.length) :
    ((isMatch method segs route).2 = true ↔
      route.Method = method ∧ segs.length = route.Length ∧
        ∀ p ∈ route.Segments.zip segs,
          p.1 = p.2 ∨ (p.1 = "" ∧ p.2 = "") ∨ p.1.data.head? = some ':')
    ∧ (segs.length ≠ route.Length → (isMatch method segs route).2 = false)
    ∧ ((isMatch method segs route).2 = true →
        ∃ entries, (isMatch method segs route).1 = GoStrMap.map entries ∧
          (∀ name, (bindingsLookup entries name).isSome = true ↔
            (":" ++ name) ∈ route.Segments) ∧
          (∀ name v, bindingsLookup entries name = some v →
            ((":" ++ name), v) ∈ route.Segments.zip segs))
    ∧ (∀ (rest : List Route) (req : Request) (entries : List (String × String)) (hid : Nat),
        ¬ route.Method = "USE" →
        req.method = method → segmentsOf req.path = segs →
        normalizePath req.path = req.path →
        isMatch method segs route = (GoStrMap.map entries, true) →
        route.Handler = some hid →
        (∀ mw ∈ route.Middlewares, mw { req with ctx := some (GoStrMap.map entries) } = true) →
        ServeHTTP (route :: rest) req =
          ((List.range route.Middlewares.length).map
              (fun i => Event.mwRun 0 i { req with ctx := some (GoStrMap.map entries) })
            ++ [Event.handlerRun 0 { req with ctx := some (GoStrMap.map entries) }],
           Outcome.handled)) := by
  have hA : (isMatch method segs route).2 = true ↔
      route.Method = method ∧ segs.length = route.Length ∧
        ∀ p ∈ route.Segments.zip segs,
          p.1 = p.2 ∨ (p.1 = "" ∧ p.2 = "") ∨ p.1.data.head? = some ':' := by
    unfold isMatch
    by_cases h1 : route.Method ≠ method
    · rw [if_pos h1]
      constructor
      · intro h; simp at h
      · rintro ⟨h2, -, -⟩; exact absurd h2 h1
    · by_cases h2 : route.Length ≠ segs.length
      · rw [if_neg h1, if_pos h2]
        constructor
        · intro h; simp at h
        · rintro ⟨-, h3, -⟩; exact absurd h3.symm h2
      · rw [if_neg h1, if_neg h2]
        have hM : route.Method = method := not_ne_iff.mp h1
        have hL : route.Length = segs.length := not_ne_iff.mp h2
        have hlen2 : route.Segments.length = segs.length := by omega
        cases hms : matchSegs route.Segments segs [] with
        | some vals =>
          constructor
          · intro _
            refine ⟨hM, hL.symm, ?_⟩
            exact (matchSegs_isSome_iff route.Segments segs [] hlen2).mp (by rw [hms]; rfl)
          · intro _; rfl
        | none =>
          constructor
          · intro h; simp at h
          · rintro ⟨-, -, hforall⟩
            have hsome := (matchSegs_isSome_iff route.Segments segs [] hlen2).mpr hforall
            rw [hms] at hsome
            simp at hsome
  refine ⟨hA, ?_, ?_, ?_⟩
  · intro hne
    unfold isMatch
    by_cases h1 : route.Method ≠ method
    · rw [if_pos h1]
    · have h2 : route.Length ≠ segs.length := fun e => hne e.symm
      rw [if_neg h1, if_pos h2]
  · intro hs
    unfold isMatch at hs ⊢
    by_cases h1 : route.Method ≠ method
    · rw [if_pos h1] at hs; simp at hs
    · by_cases h2 : route.Length ≠ segs.length
      · rw [if_neg h1, if_pos h2] at hs; simp at hs
      · rw [if_neg h1, if_neg h2] at hs ⊢
        cases hms : matchSegs route.Segments segs [] with
        | none => rw [hms] at hs; simp at hs
        | some vals =>
          refine ⟨vals, rfl, ?_, ?_⟩
          · intro name
            have h := matchSegs_lookup_isSome route.Segments segs [] vals hms name
            simpa [bindingsLookup] using h
          · intro name v hl
            rcases matchSegs_lookup_mem route.Segments segs [] vals hms name v hl with h | h
            · exact h
            · simp [bindingsLookup] at h
  · intro rest req entries hid hverb hreq hpath hnorm hmatch hhand hall
    have h5 : ServeHTTP (route :: rest) req
        = scan (segmentsOf req.path) (route :: rest) 0 req := by
      simp only [ServeHTTP]
      rw [if_neg (fun hh => hh hnorm), hnorm]
    rw [h5, hpath]
    have hreq2 : (testRoute segs req route).1
        = { req with ctx := some (GoStrMap.map entries) } := by
      simp only [testRoute, if_neg hverb]
      rw [hreq, hmatch]
    have hm : (testRoute segs req route).2 = true := by
      simp only [testRoute, if_neg hverb]
      rw [hreq, hmatch]
    have hsnd : (runChain 0 (testRoute segs req route).1 route.Middlewares 0).2 = true := by
      rw [runChain_snd, hreq2]
      exact List.all_eq_true.mpr hall
    have hfst := runChain_fst_all 0 (testRoute segs req route).1 route.Middlewares
      (by rw [hreq2]; exact hall) 0
    rw [hreq2] at hsnd hfst
    simp [scan, hm, hsnd, hfst, hhand, hreq2]

/-- C1 witness: the route `GET /users/:id` matched against `GET /users/42`. -/
theorem claim1_witness :
    (({ Method := "GET", Path := "/users/:id", Segments := ["users", ":id"], Length := 2,
        Middlewares := [], Handler := some 3 } : Route).Length
      = ({ Method := "GET", Path := "/users/:id", Segments := ["users", ":id"], Length := 2,
           Middlewares := [], Handler := some 3 } : Route).Segments.length)
    ∧ (isMatch "GET" ["users", "42"]
        { Method := "GET", Path := "/users/:id", Segments := ["users", ":id"], Length := 2,
          Middlewares := [], Handler := some 3 }).2 = true :=
  ⟨by decide, by
    have h := (claim1_exact_match
      { Method := "GET", Path := "/users/:id", Segments := ["users", ":id"], Length := 2,
        Middlewares := [], Handler := some 3 } "GET" ["users", "42"] (by decide)).1
    exact h.mpr (by decide)⟩

/-- C2: for a matched entry the middlewares run one at a time in order against
the real response writer; when a middleware does not call the synthetic `next`
the dispatch returns right after it runs; when every middleware of the entry
calls `next`, the terminal handler runs and dispatch stops if the entry has
one, and otherwise the scan proceeds to the next registry entry. -/
theorem claim2_middleware_continuation (segs : List String) (route : Route)
    (rest : List Route) (idx : Nat) (req : Request)
    (hm : (testRoute segs req route).2 = true) :
    (∀ (pre : List Middleware) (bad : Middleware) (post : List Middleware),
        route.Middlewares = pre ++ bad :: post →
        (∀ mw ∈ pre, mw (testRoute segs req route).1 = true) →
        bad (testRoute segs req route).1 = false →
        scan segs (route :: rest) idx req
          = ((List.range (pre.length + 1)).map
                (fun i => Event.mwRun idx i (testRoute segs req route).1),
             Outcome.handled))
    ∧ ((∀ mw ∈ route.Middlewares, mw (testRoute segs req route).1 = true) →
        (∀ hid, route.Handler = some hid →
          scan segs (route :: rest) idx req
            = ((List.range route.Middlewares.length).map
                  (fun i => Event.mwRun idx i (testRoute segs req route).1)
                ++ [Event.handlerRun idx (testRoute segs req route).1],
               Outcome.handled))
        ∧ (route.Handler = none →
          scan segs (route :: rest) idx req
            = ((List.range route.Middlewares.length).map
                  (fun i => Event.mwRun idx i (testRoute segs req route).1)
                ++ (scan segs rest (idx + 1) (testRoute segs req route).1).1,
               (scan segs rest (idx + 1) (testRoute segs req route).1).2))) := by
  constructor
  · intro pre bad post hmws hall hbad
    obtain ⟨hfst, hsnd⟩ :=
      runChain_fst_stop idx (testRoute segs req route).1 pre bad post 0 hall hbad
    rw [← hmws] at hfst hsnd
    simp [scan, hm, hfst, hsnd]
  · intro hall
    have hsnd : (runChain idx (testRoute segs req route).1 route.Middlewares 0).2 = true := by
      rw [runChain_snd]
      exact List.all_eq_true.mpr hall
    have hfst := runChain_fst_all idx (testRoute segs req route).1 route.Middlewares hall 0
    constructor
    · intro hid hh
      simp [scan, hm, hsnd, hfst, hh]
    · intro hh
      simp [scan, hm, hsnd, hfst, hh]

/-- C2 witness: a matched USE entry whose single middleware does not call
`next`, so dispatch stops right after it runs. -/
theorem claim2_witness :
    ((testRoute ["x"] ({ method := "GET", path := "/x", ctx := none } : Request)
        { Method := "USE", Path := "/", Segments := [""], Length := 1,
          Middlewares := [fun _ => false], Handler := none }).2 = true)
    ∧ scan ["x"]
        [({ Method := "USE", Path := "/", Segments := [""], Length := 1,
            Middlewares := [fun _ => false], Handler := none } : Route)] 0
        ({ method := "GET", path := "/x", ctx := none } : Request)
      = ([Event.mwRun 0 0 { method := "GET", path := "/x", ctx := none }],
         Outcome.handled) :=
  ⟨by decide, by
    have h := (claim2_middleware_continuation ["x"]
      { Method := "USE", Path := "/", Segments := [""], Length := 1,
        Middlewares := [fun _ => false], Handler := none } [] 0
      { method := "GET", path := "/x", ctx := none } (by decide)).1
      [] (fun _ => false) [] rfl (by intro mw hmw; exact absurd hmw (List.not_mem_nil mw)) rfl
    exact h.trans (by decide)⟩

/-! Helper lemmas about the scan loop, for the registration-order claims. -/

theorem scan_cons_matched (segs : List String) (route : Route) (rest : List Route)
    (base : Nat) (req : Request) (hm : (testRoute segs req route).2 = true) :
    scan segs (route :: rest) base req =
      (if (runChain base (testRoute segs req route).1 route.Middlewares 0).2 then
        match route.Handler with
        | some _ =>
          ((runChain base (testRoute segs req route).1 route.Middlewares 0).1
            ++ [Event.handlerRun base (testRoute segs req route).1], Outcome.handled)
        | none =>
          ((runChain base (testRoute segs req route).1 route.Middlewares 0).1
            ++ (scan segs rest (base + 1) (testRoute segs req route).1).1,
           (scan segs rest (base + 1) (testRoute segs req route).1).2)
      else ((runChain base (testRoute segs req route).1 route.Middlewares 0).1,
            Outcome.handled)) := by
  simp [scan, hm]

theorem scan_cons_unmatched (segs : List String) (route : Route) (rest : List Route)
    (base : Nat) (req : Request) (hm : (testRoute segs req route).2 = false) :
    scan segs (route :: rest) base req
      = scan segs rest (base + 1) (testRoute segs req route).1 := by
  simp [scan, hm]

theorem scan_idx_ge (segs : List String) :
    ∀ (rs : List Route) (base : Nat) (req : Request) (e : Event),
      e ∈ (scan segs rs base req).1 → base ≤ eventRouteIdx e := by
  intro rs
  induction rs with
  | nil => intro base req e he; simp [scan] at he
  | cons route rest ih =>
    intro base req e he
    cases hm : (testRoute segs req route).2
    · rw [scan_cons_unmatched _ _ _ _ _ hm] at he
      have h := ih (base + 1) _ e he
      omega
    · rw [scan_cons_matched _ _ _ _ _ hm] at he
      cases hc : (runChain base (testRoute segs req route).1 route.Middlewares 0).2
      · simp [hc] at he
        have h := runChain_mem_idx base _ route.Middlewares 0 e he
        omega
      · cases hh : route.Handler with
        | some hid =>
          simp [hc, hh] at he
          rcases he with he | he
          · have h := runChain_mem_idx base _ route.Middlewares 0 e he
            omega
          · rw [he]
            simp [eventRouteIdx]
        | none =>
          simp [hc, hh] at he
          rcases he with he | he
          · have h := runChain_mem_idx base _ route.Middlewares 0 e he
            omega
          · have h := ih (base + 1) _ e he
            omega

theorem pairwise_map_const_le (l : List Event) (idx : Nat)
    (h : ∀ e ∈ l, eventRouteIdx e = idx) :
    List.Pairwise (· ≤ ·) (l.map eventRouteIdx) := by
  induction l with
  | nil => simp
  | cons e t ih =>
    simp only [List.map_cons]
    refine List.Pairwise.cons ?_ (ih (fun e2 he2 => h e2 (List.mem_cons_of_mem _ he2)))
    intro b hb
    simp only [List.mem_map] at hb
    obtain ⟨e2, he2, hbe⟩ := hb
    rw [← hbe, h e (List.mem_cons_self _ _), h e2 (List.mem_cons_of_mem _ he2)]

theorem scan_sorted (segs : List String) :
    ∀ (rs : List Route) (base : Nat) (req : Request),
      List.Pairwise (· ≤ ·) ((scan segs rs base req).1.map eventRouteIdx) := by
  intro rs
  induction rs with
  | nil => intro base req; simp [scan]
  | cons route rest ih =>
    intro base req
    cases hm : (testRoute segs req route).2
    · rw [scan_cons_unmatched _ _ _ _ _ hm]
      exact ih (base + 1) _
    · cases hc : (runChain base (testRoute segs req route).1 route.Middlewares 0).2
      · have hr : scan segs (route :: rest) base req
            = ((runChain base (testRoute segs req route).1 route.Middlewares 0).1,
               Outcome.handled) := by
          rw [scan_cons_matched _ _ _ _ _ hm]
          simp [hc]
        rw [hr]
        exact pairwise_map_const_le _ base
          (fun e he => runChain_mem_idx base _ route.Middlewares 0 e he)
      · cases hh : route.Handler with
        | some hid =>
          have hr : scan segs (route :: rest) base req
              = ((runChain base (testRoute segs req route).1 route.Middlewares 0).1
                  ++ [Event.handlerRun base (testRoute segs req route).1],
                 Outcome.handled) := by
            rw [scan_cons_matched _ _ _ _ _ hm]
            simp [hc, hh]
          rw [hr]
          apply pairwise_map_const_le _ base
          intro e he
          rcases List.mem_append.mp he with h | h
          · exact runChain_mem_idx base _ route.Middlewares 0 e h
          · simp at h
            rw [h]
            rfl
        | none =>
          have hr : scan segs (route :: rest) base req
              = ((runChain base (testRoute segs req route).1 route.Middlewares 0).1
                  ++ (scan segs rest (base + 1) (testRoute segs req route).1).1,
                 (scan segs rest (base + 1) (testRoute segs req route).1).2) := by
            rw [scan_cons_matched _ _ _ _ _ hm]
            simp [hc, hh]
          rw [hr]
          simp only [List.map_append]
          rw [List.pairwise_append]
          refine ⟨?_, ih (base + 1) _, ?_⟩
          · exact pairwise_map_const_le _ base
              (fun e he => runChain_mem_idx base _ route.Middlewares 0 e he)
          · intro a ha b hb
            simp only [List.mem_map] at ha hb
            obtain ⟨ea, hea, haa⟩ := ha
            obtain ⟨eb, heb, hbb⟩ := hb
            rw [← haa, ← hbb]
            have h1 := runChain_mem_idx base _ route.Middlewares 0 ea hea
            have h2 := scan_idx_ge segs rest (base + 1) _ eb heb
            omega

theorem scan_handlerRun_matched (segs : List String) :
    ∀ (rs : List Route) (base : Nat) (req : Request) (n : Nat) (r : Request),
      Event.handlerRun n r ∈ (scan segs rs base req).1 →
      ∃ k, k < rs.length ∧ n = base + k
        ∧ routeMatches segs req.method (rs.getD k dRoute) = true := by
  intro rs
  induction rs with
  | nil => intro base req n r he; simp [scan] at he
  | cons route rest ih =>
    intro base req n r he
    cases hm : (testRoute segs req route).2
    · rw [scan_cons_unmatched _ _ _ _ _ hm] at he
      obtain ⟨k, hk, hn, hmk⟩ := ih (base + 1) _ n r he
      rw [testRoute_fst_method] at hmk
      refine ⟨k + 1, ?_, by omega, ?_⟩
      · simp only [List.length_cons]
        omega
      · simpa [List.getD_cons_succ] using hmk
    · rw [scan_cons_matched _ _ _ _ _ hm] at he
      cases hc : (runChain base (testRoute segs req route).1 route.Middlewares 0).2
      · simp [hc] at he
        exact absurd he (runChain_no_handlerRun base _ route.Middlewares 0 n r)
      · cases hh : route.Handler with
        | some hid =>
          simp [hc, hh] at he
          rcases he with he | he
          · exact absurd he (runChain_no_handlerRun base _ route.Middlewares 0 n r)
          · obtain ⟨hn, hr⟩ := he
            refine ⟨0, by simp, by omega, ?_⟩
            rw [List.getD_cons_zero, ← testRoute_snd_eq]
            exact hm
        | none =>
          simp [hc, hh] at he
          rcases he with he | he
          · exact absurd he (runChain_no_handlerRun base _ route.Middlewares 0 n r)
          · obtain ⟨k, hk, hn, hmk⟩ := ih (base + 1) _ n r he
            rw [testRoute_fst_method] at hmk
            refine ⟨k + 1, ?_, by omega, ?_⟩
            · simp only [List.length_cons]
              omega
            · simpa [List.getD_cons_succ] using hmk

theorem scan_stop_bound (segs : List String) :
    ∀ (rs : List Route) (k : Nat) (base : Nat) (req : Request),
      k < rs.length →
      routeMatches segs req.method (rs.getD k dRoute) = true →
      ¬ (rs.getD k dRoute).Method = "USE" →
      (rs.getD k dRoute).Handler.isSome = true →
      ∀ e ∈ (scan segs rs base req).1, eventRouteIdx e ≤ base + k := by
  intro rs
  induction rs with
  | nil =>
    intro k base req hk
    simp at hk
  | cons route rest ih =>
    intro k base req hk hmk hverb hhand e he
    cases k with
    | zero =>
      rw [List.getD_cons_zero] at hmk hverb hhand
      have hm : (testRoute segs req route).2 = true := by
        rw [testRoute_snd_eq]
        exact hmk
      rw [scan_cons_matched _ _ _ _ _ hm] at he
      cases hc : (runChain base (testRoute segs req route).1 route.Middlewares 0).2
      · simp [hc] at he
        have h := runChain_mem_idx base _ route.Middlewares 0 e he
        omega
      · cases hh : route.Handler with
        | none =>
          rw [hh] at hhand
          simp at hhand
        | some hid =>
          simp [hc, hh] at he
          rcases he with he | he
          · have h := runChain_mem_idx base _ route.Middlewares 0 e he
            omega
          · rw [he]
            simp [eventRouteIdx]
    | succ k2 =>
      rw [List.getD_cons_succ] at hmk hverb hhand
      have hk2 : k2 < rest.length := by
        simp only [List.length_cons] at hk
        omega
      cases hm : (testRoute segs req route).2
      · rw [scan_cons_unmatched _ _ _ _ _ hm] at he
        have hmk2 : routeMatches segs (testRoute segs req route).1.method
            (rest.getD k2 dRoute) = true := by
          rw [testRoute_fst_method]
          exact hmk
        have h := ih k2 (base + 1) _ hk2 hmk2 hverb hhand e he
        omega
      · rw [scan_cons_matched _ _ _ _ _ hm] at he
        cases hc : (runChain base (testRoute segs req route).1 route.Middlewares 0).2
        · simp [hc] at he
          have h := runChain_mem_idx base _ route.Middlewares 0 e he
          omega
        · cases hh : route.Handler with
          | some hid =>
            simp [hc, hh] at he
            rcases he with he | he
            · have h := runChain_mem_idx base _ route.Middlewares 0 e he
              omega
            · rw [he]
              simp [eventRouteIdx]
          | none =>
            simp [hc, hh] at he
            rcases he with he | he
            · have h := runChain_mem_idx base _ route.Middlewares 0 e he
              omega
            · have hmk2 : routeMatches segs (testRoute segs req route).1.method
                  (rest.getD k2 dRoute) = true := by
                rw [testRoute_fst_method]
                exact hmk
              have h := ih k2 (base + 1) _ hk2 hmk2 hverb hhand e he
              omega

theorem routeMatches_congr (segs : List String) (method : String) (r1 r2 : Route)
    (hm : r1.Method = r2.Method) (hs : r1.Segments = r2.Segments)
    (hl : r1.Length = r2.Length) :
    routeMatches segs method r1 = routeMatches segs method r2 := by
  unfold routeMatches isPrefixMatch isMatch
  rw [hm, hs, hl]

/-- C6 counterexample: two exact routes registered with identical method and
pattern `GET /x`, the first carrying no terminal handler; the dispatcher falls
through the first matched entry (nil handler, empty chain) and invokes the
second entry's handler, so the second-registered duplicate is reachable. -/
theorem claim6_counterexample :
    ServeHTTP
        [({ Method := "GET", Path := "/x", Segments := ["x"], Length := 1, Middlewares := [], Handler := none } : Route),
         ({ Method := "GET", Path := "/x", Segments := ["x"], Length := 1, Middlewares := [], Handler := some 1 } : Route)]
        ({ method := "GET", path := "/x", ctx := none } : Request)
      = ([Event.handlerRun 1 ({ method := "GET", path := "/x", ctx := some (GoStrMap.map []) } : Request)], Outcome.handled)
    ∧ Event.handlerRun 1
        ({ method := "GET", path := "/x", ctx := some (GoStrMap.map []) } : Request)
      ∈ (ServeHTTP
          [({ Method := "GET", Path := "/x", Segments := ["x"], Length := 1, Middlewares := [], Handler := none } : Route),
           ({ Method := "GET", Path := "/x", Segments := ["x"], Length := 1, Middlewares := [], Handler := some 1 } : Route)]
          ({ method := "GET", path := "/x", ctx := none } : Request)).1 :=
  ⟨by decide, by decide⟩

/-- C6 amended: registry entries are tested in registration order (the trace's
entry indices are nondecreasing), and of two exact routes with identical
method, segments and length where the earlier one carries a terminal handler,
the later one is never reachable: no dispatch trace contains a handler run
for the later entry. -/
theorem claim6_order_and_first_wins (m : List Route) (req : Request) (i j : Nat)
    (hij : i < j) (hj : j < m.length)
    (hmeth : (m.getD i dRoute).Method = (m.getD j dRoute).Method)
    (hsegs : (m.getD i dRoute).Segments = (m.getD j dRoute).Segments)
    (hlen : (m.getD i dRoute).Length = (m.getD j dRoute).Length)
    (hverb : ¬ (m.getD i dRoute).Method = "USE")
    (hhand : (m.getD i dRoute).Handler.isSome = true) :
    List.Pairwise (· ≤ ·) ((ServeHTTP m req).1.map eventRouteIdx)
    ∧ ∀ r, Event.handlerRun j r ∉ (ServeHTTP m req).1 := by
  by_cases hred : normalizePath req.path = req.path
  · have h : ServeHTTP m req = scan (segmentsOf req.path) m 0 req := by
      simp only [ServeHTTP]
      rw [if_neg (fun hh => hh hred), hred]
    rw [h]
    refine ⟨scan_sorted _ m 0 req, ?_⟩
    intro r hmem
    obtain ⟨k, hk, hn, hmk⟩ := scan_handlerRun_matched _ m 0 req j r hmem
    have hkj : k = j := by omega
    rw [hkj] at hmk
    have hmi : routeMatches (segmentsOf req.path) req.method (m.getD i dRoute) = true := by
      rw [routeMatches_congr _ _ (m.getD i dRoute) (m.getD j dRoute) hmeth hsegs hlen]
      exact hmk
    have hb := scan_stop_bound (segmentsOf req.path) m i 0 req (by omega) hmi hverb hhand
      (Event.handlerRun j r) hmem
    simp [eventRouteIdx] at hb
    omega
  · have h : ServeHTTP m req = ([], Outcome.redirect (normalizePath req.path) 302) := by
      simp only [ServeHTTP]
      rw [if_pos hred]
    rw [h]
    exact ⟨by simp, fun r => by simp⟩

/-- C6 witness for the amended claim: two identical `GET /x` routes both with
handlers; the later one produces no event. -/
theorem claim6_witness :
    ((0 : Nat) < 1
      ∧ (1 : Nat) < ([({ Method := "GET", Path := "/x", Segments := ["x"], Length := 1, Middlewares := [], Handler := some 0 } : Route),
          ({ Method := "GET", Path := "/x", Segments := ["x"], Length := 1, Middlewares := [], Handler := some 1 } : Route)]).length)
    ∧ (List.Pairwise (· ≤ ·)
        (((ServeHTTP
            [({ Method := "GET", Path := "/x", Segments := ["x"], Length := 1, Middlewares := [], Handler := some 0 } : Route),
             ({ Method := "GET", Path := "/x", Segments := ["x"], Length := 1, Middlewares := [], Handler := some 1 } : Route)]
            ({ method := "GET", path := "/x", ctx := none } : Request)).1).map eventRouteIdx)
      ∧ ∀ r, Event.handlerRun 1 r
          ∉ (ServeHTTP
              [({ Method := "GET", Path := "/x", Segments := ["x"], Length := 1, Middlewares := [], Handler := some 0 } : Route),
               ({ Method := "GET", Path := "/x", Segments := ["x"], Length := 1, Middlewares := [], Handler := some 1 } : Route)]
              ({ method := "GET", path := "/x", ctx := none } : Request)).1) :=
  ⟨⟨by decide, by decide⟩,
    claim6_order_and_first_wins _ _ 0 1 (by decide) (by decide) (by decide) (by decide)
      (by decide) (by decide) (by decide)⟩

/-! Helper lemma about the registration item scan. -/

theorem collectThings_append (xs : List Thing) :
    ∀ (ys : List Thing) (acc : List Middleware) (h : Option Nat)
      (mws : List Middleware) (h2 : Option Nat),
      collectThings xs acc h = Except.ok (mws, h2) →
      collectThings (xs ++ ys) acc h = collectThings ys mws h2 := by
  induction xs with
  | nil =>
    intro ys acc h mws h2 hok
    simp [collectThings] at hok
    obtain ⟨e1, e2⟩ := hok
    subst e1
    subst e2
    rfl
  | cons t xs2 ih =>
    intro ys acc h mws h2 hok
    cases t with
    | middleware mw =>
      cases h with
      | some hid0 => simp [collectThings] at hok
      | none =>
        have hstep : collectThings ((Thing.middleware mw :: xs2) ++ ys) acc none
            = collectThings (xs2 ++ ys) (acc ++ [mw]) none := rfl
        rw [hstep]
        exact ih ys (acc ++ [mw]) none mws h2 hok
    | handlerObj hid =>
      cases h with
      | some hid0 => simp [collectThings] at hok
      | none =>
        have hstep : collectThings ((Thing.handlerObj hid :: xs2) ++ ys) acc none
            = collectThings (xs2 ++ ys) acc (some hid) := rfl
        rw [hstep]
        exact ih ys acc (some hid) mws h2 hok
    | handlerFunc hid =>
      cases h with
      | some hid0 => simp [collectThings] at hok
      | none =>
        have hstep : collectThings ((Thing.handlerFunc hid :: xs2) ++ ys) acc none
            = collectThings (xs2 ++ ys) acc (some hid) := rfl
        rw [hstep]
        exact ih ys acc (some hid) mws h2 hok
    | other => simp [collectThings] at hok

/-- C7: a registration whose items contain a second terminal handler fails
with the MultipleHandlers error, a middleware supplied after a recognized
terminal handler fails with the MiddlewareAfterHandler error, an item of
neither shape fails with the UnknownTypeInRoute error, and every failing
registration leaves the registry unchanged. -/
theorem claim7_registration_errors (m : List Route) (method p : String)
    (hp : strTake p 1 = "/") :
    (∀ (things : List Thing) (e : MuxError) (m2 : List Route),
        add m method p things = AddOutcome.failed e m2 → m2 = m)
    ∧ (∀ (xs zs : List Thing) (mws : List Middleware) (h0 hid : Nat),
        collectThings xs [] none = Except.ok (mws, some h0) →
        add m method p (xs ++ Thing.handlerObj hid :: zs)
          = AddOutcome.failed MuxError.MultipleHandlers m)
    ∧ (∀ (xs zs : List Thing) (mws : List Middleware) (h0 hid : Nat),
        collectThings xs [] none = Except.ok (mws, some h0) →
        add m method p (xs ++ Thing.handlerFunc hid :: zs)
          = AddOutcome.failed MuxError.MultipleHandlers m)
    ∧ (∀ (xs zs : List Thing) (mws : List Middleware) (h0 : Nat) (mw : Middleware),
        collectThings xs [] none = Except.ok (mws, some h0) →
        add m method p (xs ++ Thing.middleware mw :: zs)
          = AddOutcome.failed MuxError.MiddlewareAfterHandler m)
    ∧ (∀ (xs zs : List Thing) (mws : List Middleware) (h1 : Option Nat),
        collectThings xs [] none = Except.ok (mws, h1) →
        add m method p (xs ++ Thing.other :: zs)
          = AddOutcome.failed MuxError.UnknownTypeInRoute m) := by
  have hpne : ¬ strTake p 1 ≠ "/" := fun hh => hh hp
  refine ⟨?_, ?_, ?_, ?_, ?_⟩
  · intro things e m2 h
    unfold add at h
    rw [if_neg hpne] at h
    cases hcol : collectThings things [] none with
    | error e2 =>
      rw [hcol] at h
      simp at h
      exact h.2.symm
    | ok pr =>
      obtain ⟨mws2, hopt⟩ := pr
      rw [hcol] at h
      simp at h
  · intro xs zs mws h0 hid hok
    unfold add
    rw [if_neg hpne,
      collectThings_append xs (Thing.handlerObj hid :: zs) [] none mws (some h0) hok]
    rfl
  · intro xs zs mws h0 hid hok
    unfold add
    rw [if_neg hpne,
      collectThings_append xs (Thing.handlerFunc hid :: zs) [] none mws (some h0) hok]
    rfl
  · intro xs zs mws h0 mw hok
    unfold add
    rw [if_neg hpne,
      collectThings_append xs (Thing.middleware mw :: zs) [] none mws (some h0) hok]
    rfl
  · intro xs zs mws h1 hok
    unfold add
    rw [if_neg hpne,
      collectThings_append xs (Thing.other :: zs) [] none mws h1 hok]
    rfl

/-- C7 witness: registering two terminal handlers on `/x` fails with the
MultipleHandlers error and leaves the empty registry unchanged. -/
theorem claim7_witness :
    strTake "/x" 1 = "/"
    ∧ add [] "GET" "/x" [Thing.handlerObj 0, Thing.handlerObj 1]
        = AddOutcome.failed MuxError.MultipleHandlers [] :=
  ⟨rfl, (claim7_registration_errors [] "GET" "/x" rfl).2.1
    [Thing.handlerObj 0] [] [] 0 1 rfl⟩

/-- Helper for C8: a scan in which no exact entry matches and every matching
USE entry has an all-continue middleware chain and no handler ends in the
not-found outcome. -/
theorem scan_all_continue_notFound (segs : List String) (method : String) :
    ∀ (rs : List Route) (base : Nat) (req : Request), req.method = method →
      (∀ route ∈ rs, ¬ route.Method = "USE" → (isMatch method segs route).2 = false) →
      (∀ route ∈ rs, route.Method = "USE" → isPrefixMatch segs route = true →
        (∀ mw ∈ route.Middlewares, ∀ r : Request, mw r = true) ∧ route.Handler = none) →
      (scan segs rs base req).2 = Outcome.notFound := by
  intro rs
  induction rs with
  | nil => intro base req _ _ _; simp [scan]
  | cons route rest ih =>
    intro base req hreq hex huse
    by_cases hU : route.Method = "USE"
    · cases hp : isPrefixMatch segs route
      · have hm : (testRoute segs req route).2 = false := by
          rw [testRoute_snd_eq]
          unfold routeMatches
          rw [if_pos hU]
          exact hp
        rw [scan_cons_unmatched _ _ _ _ _ hm]
        exact ih (base + 1) _ (by rw [testRoute_fst_method]; exact hreq)
          (fun r hr => hex r (List.mem_cons_of_mem _ hr))
          (fun r hr => huse r (List.mem_cons_of_mem _ hr))
      · have hm : (testRoute segs req route).2 = true := by
          rw [testRoute_snd_eq]
          unfold routeMatches
          rw [if_pos hU]
          exact hp
        obtain ⟨hallmw, hnone⟩ := huse route (List.mem_cons_self _ _) hU hp
        have hsnd : (runChain base (testRoute segs req route).1 route.Middlewares 0).2
            = true := by
          rw [runChain_snd]
          exact List.all_eq_true.mpr (fun mw hmw => hallmw mw hmw _)
        have hrec := ih (base + 1) (testRoute segs req route).1
          (by rw [testRoute_fst_method]; exact hreq)
          (fun r hr => hex r (List.mem_cons_of_mem _ hr))
          (fun r hr => huse r (List.mem_cons_of_mem _ hr))
        rw [scan_cons_matched _ _ _ _ _ hm]
        simp [hsnd, hnone, hrec]
    · have hm : (testRoute segs req route).2 = false := by
        rw [testRoute_snd_eq]
        unfold routeMatches
        rw [if_neg hU, hreq]
        exact hex route (List.mem_cons_self _ _) hU
      rw [scan_cons_unmatched _ _ _ _ _ hm]
      exact ih (base + 1) _ (by rw [testRoute_fst_method]; exact hreq)
        (fun r hr => hex r (List.mem_cons_of_mem _ hr))
        (fun r hr => huse r (List.mem_cons_of_mem _ hr))

/-- C8: a request that is not redirected and for which no exact entry matches,
while every matching USE entry's chain signals continue and carries no
terminal handler, ends in the not-found response; the outcome type has no
error alternative, so no error reaches the caller at request time. -/
theorem claim8_unmatched_not_found (m : List Route) (req : Request)
    (hnorm : normalizePath req.path = req.path)
    (hex : ∀ route ∈ m, ¬ route.Method = "USE" →
      (isMatch req.method (segmentsOf req.path) route).2 = false)
    (huse : ∀ route ∈ m, route.Method = "USE" →
      isPrefixMatch (segmentsOf req.path) route = true →
      (∀ mw ∈ route.Middlewares, ∀ r : Request, mw r = true) ∧ route.Handler = none) :
    (ServeHTTP m req).2 = Outcome.notFound := by
  have h : ServeHTTP m req = scan (segmentsOf req.path) m 0 req := by
    simp only [ServeHTTP]
    rw [if_neg (fun hh => hh hnorm), hnorm]
  rw [h]
  exact scan_all_continue_notFound (segmentsOf req.path) req.method m 0 req rfl hex huse

/-- C8 witness: a USE entry whose middleware always continues, followed by a
non-matching GET entry; the request ends in not-found. -/
theorem claim8_witness :
    (ServeHTTP
        [({ Method := "USE", Path := "/", Segments := [""], Length := 1,
            Middlewares := [fun _ => true], Handler := none } : Route),
         ({ Method := "GET", Path := "/y", Segments := ["y"], Length := 1,
            Middlewares := [], Handler := some 5 } : Route)]
        ({ method := "GET", path := "/x", ctx := none } : Request)).2
      = Outcome.notFound := by
  apply claim8_unmatched_not_found
  · decide
  · intro route hr hv
    rcases List.mem_cons.mp hr with h | h
    · subst h
      exact absurd rfl hv
    · rcases List.mem_cons.mp h with h2 | h2
      · subst h2
        decide
      · exact absurd h2 (List.not_mem_nil _)
  · intro route hr hu hp
    rcases List.mem_cons.mp hr with h | h
    · subst h
      refine ⟨?_, rfl⟩
      intro mw hmw r
      rcases List.mem_cons.mp hmw with h2 | h2
      · rw [h2]
      · exact absurd h2 (List.not_mem_nil _)
    · rcases List.mem_cons.mp h with h2 | h2
      · subst h2
        exact absurd hu (by decide)
      · exact absurd h2 (List.not_mem_nil _)

end GomiddlewareMux
